import Mathlib

/-!
Verification of the enrollment-policy and schedule-conflict validation engine.

The engine lives in `src/services/validation.service.ts` (the raw-SQL
lineage: `ValidationService.validateEnrollmentEdgeCases` and its helper
checks), `EnrollmentService` (raw-SQL variant: `enrollStudent`,
`saveEnrollments`, `unenrollStudent`, `markCourseCompleted`) and the
database triggers of `database/schema.sql`.

Modelling conventions:
* times of day are minutes since midnight (`timeToMinutes` of the stored
  `TIME` values; the parse of a valid `HH:MM` string is lossless);
* SQL result sets are embedded as Lean lists scanned in storage order;
* JavaScript floating-point arithmetic on hour totals is embedded as exact
  rational arithmetic (`ℚ`);
* a transaction works on an explicit state; `COMMIT` installs the new
  state and `ROLLBACK` (taken by the services on every error path)
  restores the entry state.
-/

namespace Aeria

/-- The seven `day_of_week` values of the `timetables` table. -/
inductive DayOfWeek where
  | sunday | monday | tuesday | wednesday | thursday | friday | saturday
deriving DecidableEq, Repr

/-- Position of a day in the `days` array
`['SUNDAY', 'MONDAY', ..., 'SATURDAY']` used by `hasOvernightConflict`. -/
def dayIndex : DayOfWeek → Nat
  | .sunday => 0
  | .monday => 1
  | .tuesday => 2
  | .wednesday => 3
  | .thursday => 4
  | .friday => 5
  | .saturday => 6

/-- Alphabetical rank of the `VARCHAR` day name, giving the order produced
by `ORDER BY t.day_of_week` in `getTimetablesInfo`. -/
def alphaIndex : DayOfWeek → Nat
  | .friday => 0
  | .monday => 1
  | .saturday => 2
  | .sunday => 3
  | .thursday => 4
  | .tuesday => 5
  | .wednesday => 6

/-- The next calendar day in the 7-day cycle. -/
def nextDay : DayOfWeek → DayOfWeek
  | .sunday => .monday
  | .monday => .tuesday
  | .tuesday => .wednesday
  | .wednesday => .thursday
  | .thursday => .friday
  | .friday => .saturday
  | .saturday => .sunday

/-- A row of the `timetables` table joined with its course
(`t.course_id, t.day_of_week, t.start_time, t.end_time,
t.is_overnight_class`), times in minutes since midnight. -/
structure Timetable where
  courseId : Nat
  day : DayOfWeek
  startM : Nat
  endM : Nat
  isOvernight : Bool
deriving DecidableEq, Repr

/-- `ValidationService.overnightTimeRangesOverlap`. -/
def overnightTimeRangesOverlap (t1 t2 : Timetable) : Bool :=
  let start1 := t1.startM
  let end1 := t1.endM
  let start2 := t2.startM
  let end2 := t2.endM
  if t1.isOvernight && t2.isOvernight then
    let eveningOverlaps :=
      decide (start1 < 1440) && decide (start2 < 1440) && decide (max start1 start2 < 1440)
    let morningOverlaps :=
      decide (end1 > 0) && decide (end2 > 0) && decide (min end1 end2 > 0)
    eveningOverlaps || morningOverlaps
  else if t1.isOvernight then
    (decide (start2 ≥ start1) || decide (end2 > start1)) ||
      (decide (start2 < end1) || decide (end2 ≤ end1))
  else if t2.isOvernight then
    (decide (start1 ≥ start2) || decide (end1 > start2)) ||
      (decide (start1 < end2) || decide (end1 ≤ end2))
  else false

/-- `ValidationService.timeRangesOverlap`. -/
def timeRangesOverlap (t1 t2 : Timetable) : Bool :=
  if t1.isOvernight || t2.isOvernight then
    overnightTimeRangesOverlap t1 t2
  else
    decide (t1.startM < t2.endM) && decide (t2.startM < t1.endM)

/-- `ValidationService.hasOvernightConflict`: cross-day check for
adjacent days in the 7-day cycle. -/
def hasOvernightConflict (t1 t2 : Timetable) : Bool :=
  let day1 := dayIndex t1.day
  let day2 := dayIndex t2.day
  let isNextDay := (day1 + 1) % 7 == day2
  let isPrevDay := (day2 + 1) % 7 == day1
  if isNextDay && t1.isOvernight then
    decide (t1.endM > t2.startM)
  else if isPrevDay && t2.isOvernight then
    decide (t2.endM > t1.startM)
  else false

/-- `ValidationService.hasEnhancedTimeConflict`. -/
def hasEnhancedTimeConflict (t1 t2 : Timetable) : Bool :=
  if t1.day == t2.day then timeRangesOverlap t1 t2
  else hasOvernightConflict t1 t2

/-- Half-open interval overlap, the `a.start < b.end && b.start < a.end`
relation of the spec's time model. -/
def intervalsOverlap (s1 e1 s2 e2 : Nat) : Prop :=
  s1 < e2 ∧ s2 < e1

instance (s1 e1 s2 e2 : Nat) : Decidable (intervalsOverlap s1 e1 s2 e2) := by
  unfold intervalsOverlap
  infer_instance

theorem dayIndex_nextDay (d : DayOfWeek) : dayIndex (nextDay d) = (dayIndex d + 1) % 7 := by
  cases d <;> rfl

theorem nextDay_ne (d : DayOfWeek) : nextDay d ≠ d := by
  cases d <;> decide

theorem dayIndex_injective {d e : DayOfWeek} (h : dayIndex d = dayIndex e) : d = e := by
  cases d <;> cases e <;> simp [dayIndex] at h ⊢

theorem not_isPrevDay_of_nextDay (d : DayOfWeek) :
    ¬((dayIndex (nextDay d) + 1) % 7 = dayIndex d) := by
  cases d <;> decide

/-- C4. For a pair of slots on adjacent days where the earlier slot is
overnight, the conflict detector reports a cross-day conflict exactly when
the overnight slot's morning portion (midnight to its end) overlaps the
next-day slot's half-open interval. -/
theorem crossDay_overnight_conflict_iff (t1 t2 : Timetable)
    (hov : t1.isOvernight = true)
    (hadj : t2.day = nextDay t1.day)
    (hval2 : t2.startM < t2.endM) :
    hasEnhancedTimeConflict t1 t2 = true ↔ intervalsOverlap 0 t1.endM t2.startM t2.endM := by
  have hne : t1.day ≠ t2.day := by
    rw [hadj]
    exact fun h => nextDay_ne t1.day (h.symm)
  have hbeq : (t1.day == t2.day) = false := by
    simp [hne]
  have hidx : dayIndex t2.day = (dayIndex t1.day + 1) % 7 := by
    rw [hadj, dayIndex_nextDay]
  have hprev : ¬((dayIndex t2.day + 1) % 7 = dayIndex t1.day) := by
    rw [hadj]
    exact not_isPrevDay_of_nextDay t1.day
  unfold hasEnhancedTimeConflict hasOvernightConflict
  rw [hbeq]
  simp only [Bool.false_eq_true, if_false, hov, hidx]
  simp only [beq_self_eq_true, Bool.and_true, Bool.true_and, if_true, and_true]
  constructor
  · intro h
    simp only [decide_eq_true_eq] at h
    exact ⟨by omega, by omega⟩
  · intro ⟨h1, h2⟩
    simp only [decide_eq_true_eq]
    omega

/-- Witness for C4 at the spec's concrete instance: Friday 22:00-01:00
(overnight) against Saturday 00:30-02:00 (regular) is reported. -/
theorem crossDay_overnight_conflict_witness :
    hasEnhancedTimeConflict
        ⟨1, .friday, 1320, 60, true⟩ ⟨2, .saturday, 30, 120, false⟩ = true ∧
      intervalsOverlap 0 60 30 120 := by
  have h := crossDay_overnight_conflict_iff
    ⟨1, .friday, 1320, 60, true⟩ ⟨2, .saturday, 30, 120, false⟩
    (by decide) (by decide) (by decide)
  exact ⟨h.mpr (by decide), by decide⟩

/-- C10. Two same-day slots that both carry the overnight flag are always
reported as conflicting by the overlap test, whatever their times are. -/
theorem sameDay_bothOvernight_always_conflict (t1 t2 : Timetable)
    (hday : t1.day = t2.day)
    (h1 : t1.isOvernight = true) (h2 : t2.isOvernight = true)
    (hs1 : t1.startM ≤ 1439) (hs2 : t2.startM ≤ 1439) :
    hasEnhancedTimeConflict t1 t2 = true := by
  unfold hasEnhancedTimeConflict timeRangesOverlap overnightTimeRangesOverlap
  simp only [hday, beq_self_eq_true, if_true, h1, h2, Bool.true_or, Bool.and_self, if_true]
  simp only [decide_eq_true_eq, Bool.and_eq_true, Bool.or_eq_true]
  left
  refine ⟨⟨by omega, by omega⟩, by omega⟩

/-- Witness for C10: two disjoint-looking overnight slots
(Monday 23:00-00:30 and Monday 18:00-19:00-as-overnight) still conflict. -/
theorem sameDay_bothOvernight_always_conflict_witness :
    hasEnhancedTimeConflict
        ⟨1, .monday, 1380, 30, true⟩ ⟨2, .monday, 1080, 60, true⟩ = true :=
  sameDay_bothOvernight_always_conflict
    ⟨1, .monday, 1380, 30, true⟩ ⟨2, .monday, 1080, 60, true⟩
    rfl rfl rfl (by decide) (by decide)

/-- A row of `students` (`id, college_id`). -/
structure Student where
  id : Nat
  collegeId : Nat
deriving DecidableEq, Repr

/-- A row of `courses` (`id, credits, college_id, max_capacity,
prerequisites`); the comma-separated `prerequisites` text column is kept
as its parsed id list, `NULL`/empty as `[]`. -/
structure Course where
  id : Nat
  credits : Nat
  collegeId : Nat
  maxCapacity : Option Nat
  prereqText : List Nat
deriving DecidableEq, Repr

/-- A row of `course_prerequisites`. -/
structure PrereqEdge where
  courseId : Nat
  prereqCourseId : Nat
  minimumGrade : Option String
  isMandatory : Bool
deriving DecidableEq, Repr

/-- A row of `student_course_selections` (`student_id, course_id,
is_completed, completed_at, grade`); `completedAt` records whether the
`completed_at` timestamp is set. -/
structure Selection where
  studentId : Nat
  courseId : Nat
  isCompleted : Bool
  completedAt : Bool
  grade : Option String
deriving DecidableEq, Repr

/-- A row of `enrollment_configs`. -/
structure Config where
  collegeId : Nat
  maxCreditHoursPerSemester : Nat
  maxStudyHoursPerDay : Nat
  minBreakTimeBetweenClasses : Nat
  maxCoursesPerSemester : Nat
  allowOvernightClasses : Bool
  allowWeekendClasses : Bool
deriving DecidableEq, Repr

/-- The persistent store the engine reads and writes. -/
structure DB where
  students : List Student
  courses : List Course
  timetables : List Timetable
  prereqEdges : List PrereqEdge
  selections : List Selection
  configs : List Config
deriving DecidableEq, Repr

/-- The violations the checks push, kept as structured data (the service
renders each as a message string). -/
inductive Violation where
  | collegeMismatch : Violation
  | prereqMissing (courseId : Nat) (missing : List Nat) : Violation
  | capacityFull (courseId : Nat) : Violation
  | creditHoursExceeded (total cap : Nat) : Violation
  | courseCountExceeded (total cap : Nat) : Violation
  | overnightNotAllowed : Violation
  | timetableConflict (t1 t2 : Timetable) : Violation
  | bufferTime (day : DayOfWeek) (currentEnd nextStart : Nat) (gap : Int) : Violation
  | dailyHours (day : DayOfWeek) (hours : ℚ) (cap : Nat) : Violation
  | duplicateEnrollment (courseId : Nat) : Violation
  | internalError : Violation
deriving DecidableEq, Repr

/-- `getStudentInfo`: `SELECT id, college_id FROM students WHERE id = $1`
(the service throws when no row comes back). -/
def getStudentInfo (db : DB) (sid : Nat) : Option Student :=
  db.students.find? (fun s => s.id == sid)

/-- The default configuration `getEnrollmentConfig` returns when no
`enrollment_configs` row exists for the college. -/
def defaultConfig (cid : Nat) : Config :=
  ⟨cid, 18, 8, 15, 6, false, true⟩

/-- `getEnrollmentConfig`. -/
def getEnrollmentConfig (db : DB) (cid : Nat) : Config :=
  (db.configs.find? (fun c => c.collegeId == cid)).getD (defaultConfig cid)

/-- `getCoursesInfo`: `SELECT ... FROM courses WHERE id IN (...)`. -/
def getCoursesInfo (db : DB) (ids : List Nat) : List Course :=
  db.courses.filter (fun c => ids.contains c.id)

/-- `ORDER BY t.day_of_week, t.start_time` on the `VARCHAR` day column:
alphabetical day name, then start time. -/
def ttKey (t : Timetable) : Nat :=
  alphaIndex t.day * 1440 + t.startM

/-- `getTimetablesInfo`: timetable rows of the requested courses joined
with `courses`, ordered by day name then start time. -/
def getTimetablesInfo (db : DB) (ids : List Nat) : List Timetable :=
  ((db.timetables.filter (fun t =>
      ids.contains t.courseId && db.courses.any (fun c => c.id == t.courseId))).insertionSort
    (fun a b => ttKey a ≤ ttKey b))

/-- 1. `validateSameCollegeMultiple`: one message when any requested
course has a different `college_id` than the student. -/
def validateSameCollegeMultiple (db : DB) (student : Student) (ids : List Nat) : List Violation :=
  if ids.isEmpty then []
  else if db.courses.any (fun c => ids.contains c.id && c.collegeId != student.collegeId) then
    [.collegeMismatch]
  else []

/-- The `completed_courses` CTE: selections of the student with
`is_completed = true`. -/
def completedCourseIds (db : DB) (sid : Nat) : List Nat :=
  (db.selections.filter (fun s => s.studentId == sid && s.isCompleted)).map (fun s => s.courseId)

/-- A row of the `course_prereqs` CTE. -/
structure PrereqRow where
  prereqCourseId : Nat
  minimumGrade : Option String
  isMandatory : Bool
deriving DecidableEq, Repr

/-- The `course_prereqs` CTE: the `course_prerequisites` rows of the
course `UNION` the parsed text column (as mandatory, minimum grade `C`);
`UNION` removes duplicate rows. -/
def coursePrereqRows (db : DB) (cid : Nat) : List PrereqRow :=
  (((db.prereqEdges.filter (fun e => e.courseId == cid)).map
      (fun e => PrereqRow.mk e.prereqCourseId e.minimumGrade e.isMandatory))
    ++ (match db.courses.find? (fun c => c.id == cid) with
        | some c => c.prereqText.map (fun p => PrereqRow.mk p (some "C") true)
        | none => [])).dedup

/-- The rows the prerequisite query returns for one course: mandatory
rows with no completed selection of the prerequisite course. -/
def missingPrereqRows (db : DB) (sid cid : Nat) : List PrereqRow :=
  (coursePrereqRows db cid).filter
    (fun r => r.isMandatory && !((completedCourseIds db sid).contains r.prereqCourseId))

/-- 2. `validatePrerequisitesEnhanced`: one violation per requested course
whose mandatory prerequisites are not all completed, listing the missing
prerequisite course ids. -/
def validatePrerequisitesEnhanced (db : DB) (sid : Nat) (ids : List Nat) : List Violation :=
  ids.flatMap (fun cid =>
    let missing := missingPrereqRows db sid cid
    if missing.isEmpty then []
    else [.prereqMissing cid (missing.map (fun r => r.prereqCourseId))])

/-- `COUNT(scs.course_id) ... AND scs.is_completed = false`: number of
active selections of a course. -/
def activeEnrollmentCount (db : DB) (cid : Nat) : Nat :=
  (db.selections.filter (fun s => s.courseId == cid && !s.isCompleted)).length

/-- The `HAVING COUNT(...) >= c.max_capacity` condition; a `NULL`
capacity compares to nothing and never triggers. -/
def courseAtCapacity (db : DB) (c : Course) : Bool :=
  match c.maxCapacity with
  | some cap => decide (cap ≤ activeEnrollmentCount db c.id)
  | none => false

/-- 3. `validateCourseCapacityMultiple`. -/
def validateCourseCapacityMultiple (db : DB) (ids : List Nat) : List Violation :=
  (db.courses.filter (fun c => ids.contains c.id && courseAtCapacity db c)).map
    (fun c => .capacityFull c.id)

/-- `SELECT COALESCE(SUM(c.credits), 0) ... WHERE scs.student_id = $1 AND
scs.is_completed = false`: credits of the student's active courses. -/
def currentCredits (db : DB) (sid : Nat) : Nat :=
  ((db.selections.filter (fun s => s.studentId == sid && !s.isCompleted)).filterMap
    (fun s => (db.courses.find? (fun c => c.id == s.courseId)).map (fun c => c.credits))).sum

/-- 4. `validateCreditHoursLimit`; `course.credits || 3` turns a zero
(falsy) credit value into 3. -/
def validateCreditHoursLimit (db : DB) (sid : Nat) (coursesInfo : List Course)
    (maxCredit : Nat) : List Violation :=
  let newCredits := (coursesInfo.map (fun c => if c.credits == 0 then 3 else c.credits)).sum
  let total := currentCredits db sid + newCredits
  if maxCredit < total then [.creditHoursExceeded total maxCredit] else []

/-- `SELECT COUNT(*) ... WHERE student_id = $1 AND is_completed = false`. -/
def currentCourseCount (db : DB) (sid : Nat) : Nat :=
  (db.selections.filter (fun s => s.studentId == sid && !s.isCompleted)).length

/-- 5. `validateMaxCoursesPerSemester`. -/
def validateMaxCoursesPerSemester (db : DB) (sid : Nat) (ids : List Nat)
    (maxCourses : Nat) : List Violation :=
  let total := currentCourseCount db sid + ids.length
  if maxCourses < total then [.courseCountExceeded total maxCourses] else []

/-- 6. `validateOvernightClassesPolicy`. -/
def validateOvernightClassesPolicy (tts : List Timetable) (allow : Bool) : List Violation :=
  if !allow && !(tts.filter (fun t => t.isOvernight)).isEmpty then
    [.overnightNotAllowed]
  else []

/-- The student's existing timetables: active selections joined with
`courses` and `timetables`. -/
def existingTimetables (db : DB) (sid : Nat) : List Timetable :=
  (db.selections.filter (fun s => s.studentId == sid && !s.isCompleted)).flatMap
    (fun s =>
      if db.courses.any (fun c => c.id == s.courseId) then
        db.timetables.filter (fun t => t.courseId == s.courseId)
      else [])

/-- The `i < j` double loop over the new timetables. -/
def pairConflicts : List Timetable → List Violation
  | [] => []
  | t :: rest =>
    (rest.filter (fun u => hasEnhancedTimeConflict t u)).map (fun u => .timetableConflict t u)
      ++ pairConflicts rest

/-- 7. `validateEnhancedTimetableConflicts`: new-versus-existing pairs,
then pairs within the new timetables. -/
def validateEnhancedTimetableConflicts (db : DB) (sid : Nat)
    (newTts : List Timetable) : List Violation :=
  (newTts.flatMap (fun nt =>
    ((existingTimetables db sid).filter (fun et => hasEnhancedTimeConflict nt et)).map
      (fun et => .timetableConflict nt et)))
    ++ pairConflicts newTts

/-- `groupTimetablesByDay`: a JavaScript object built by `reduce`; keys
appear in first-occurrence order. -/
def groupTimetablesByDay (tts : List Timetable) : List (DayOfWeek × List Timetable) :=
  tts.foldl (fun acc t =>
    if acc.any (fun p => p.1 == t.day) then
      acc.map (fun p => if p.1 == t.day then (p.1, p.2 ++ [t]) else p)
    else acc ++ [(t.day, [t])]) []

/-- The `(sorted[i], sorted[i+1])` pairs of the buffer loop. -/
def bufferPairs : List Timetable → List (Timetable × Timetable)
  | a :: b :: rest => (a, b) :: bufferPairs (b :: rest)
  | _ => []

/-- `sort((a, b) => timeToMinutes(a.start_time) - timeToMinutes(b.start_time))`. -/
def sortByStart (l : List Timetable) : List Timetable :=
  l.insertionSort (fun a b => a.startM ≤ b.startM)

/-- The buffer violations of one day's group: drop overnight slots, sort
by start, flag each adjacent pair closer than the minimum buffer. -/
def dayBufferViolations (d : DayOfWeek) (dayTts : List Timetable)
    (minBuf : Nat) : List Violation :=
  (bufferPairs (sortByStart (dayTts.filter (fun t => !t.isOvernight)))).filterMap
    (fun p =>
      let gap : Int := (p.2.startM : Int) - (p.1.endM : Int)
      if gap < (minBuf : Int) then some (.bufferTime d p.1.endM p.2.startM gap) else none)

/-- 8. `validateBufferTime` over existing plus new timetables. -/
def validateBufferTime (db : DB) (sid : Nat) (newTts : List Timetable)
    (minBuf : Nat) : List Violation :=
  let all := existingTimetables db sid ++ newTts
  (groupTimetablesByDay all).flatMap (fun p => dayBufferViolations p.1 p.2 minBuf)

/-- `duration` in minutes: overnight slots span midnight. -/
def durationMinutes (t : Timetable) : Int :=
  if t.isOvernight then (1440 - (t.startM : Int)) + t.endM
  else (t.endM : Int) - t.startM

/-- `duration / 60`: one slot's contribution in hours. -/
def slotHoursQ (t : Timetable) : ℚ :=
  (durationMinutes t : ℚ) / 60

/-- The reducer of `calculateHoursByDay`: add the slot's hours to its
day's entry, creating the entry on first occurrence. -/
def addSlotHours (acc : List (DayOfWeek × ℚ)) (t : Timetable) : List (DayOfWeek × ℚ) :=
  if acc.any (fun p => p.1 == t.day) then
    acc.map (fun p => if p.1 == t.day then (p.1, p.2 + slotHoursQ t) else p)
  else acc ++ [(t.day, slotHoursQ t)]

/-- `calculateHoursByDay`: per-day totals in hours, accumulated in
first-occurrence order of the days. -/
def calculateHoursByDay (tts : List Timetable) : List (DayOfWeek × ℚ) :=
  tts.foldl addSlotHours []

/-- 9. `validateDailyStudyHours` over existing plus new timetables. -/
def validateDailyStudyHours (db : DB) (sid : Nat) (newTts : List Timetable)
    (maxHours : Nat) : List Violation :=
  let all := existingTimetables db sid ++ newTts
  (calculateHoursByDay all).filterMap
    (fun p => if (maxHours : ℚ) < p.2 then some (.dailyHours p.1 p.2 maxHours) else none)

/-- The result record of the validation service. -/
structure ValidationResult where
  isValid : Bool
  violations : List Violation
deriving DecidableEq, Repr

/-- `ValidationService.validateEnrollmentEdgeCases`: the sequential pushes
of the nine checks; a missing student takes the catch path. -/
def validateEnrollmentEdgeCases (db : DB) (sid : Nat) (ids : List Nat) : ValidationResult :=
  match getStudentInfo db sid with
  | none => ⟨false, [.internalError]⟩
  | some student =>
    let config := getEnrollmentConfig db student.collegeId
    let coursesInfo := getCoursesInfo db ids
    let timetablesInfo := getTimetablesInfo db ids
    let violations : List Violation := []
    let violations := violations ++ validateSameCollegeMultiple db student ids
    let violations := violations ++ validatePrerequisitesEnhanced db student.id ids
    let violations := violations ++ validateCourseCapacityMultiple db ids
    let violations := violations
      ++ validateCreditHoursLimit db student.id coursesInfo config.maxCreditHoursPerSemester
    let violations := violations
      ++ validateMaxCoursesPerSemester db student.id ids config.maxCoursesPerSemester
    let violations := violations
      ++ validateOvernightClassesPolicy timetablesInfo config.allowOvernightClasses
    let violations := violations
      ++ validateEnhancedTimetableConflicts db student.id timetablesInfo
    let violations := violations
      ++ validateBufferTime db student.id timetablesInfo config.minBreakTimeBetweenClasses
    let violations := violations
      ++ validateDailyStudyHours db student.id timetablesInfo config.maxStudyHoursPerDay
    ⟨violations.isEmpty, violations⟩

/-- The exceptions the enrollment service and the database raise. -/
inductive EnrollError where
  | emptyCourseList : EnrollError
  | studentNotFound (sid : Nat) : EnrollError
  | coursesNotFound (missing : List Nat) : EnrollError
  | validationFailed (violations : List Violation) : EnrollError
  | alreadyEnrolled (cid : Nat) : EnrollError
  | collegeTrigger (cid : Nat) : EnrollError
  | conflictTrigger (cid : Nat) : EnrollError
  | capacityTrigger (cid : Nat) : EnrollError
  | enrollmentNotFound (cid : Nat) : EnrollError
deriving DecidableEq, Repr

/-- A fresh enrollment row (`INSERT INTO student_course_selections
(student_id, course_id)`; `is_completed` defaults to false). -/
def mkSelection (sid cid : Nat) : Selection :=
  ⟨sid, cid, false, false, none⟩

/-- `BEFORE INSERT` trigger `check_same_college_enrollment`
(schema.sql): raises when the student's and course's colleges differ; a
`NULL` subquery result (missing row) makes the comparison not-true. -/
def collegeTriggerPasses (db : DB) (sid cid : Nat) : Bool :=
  match db.students.find? (fun s => s.id == sid),
      db.courses.find? (fun c => c.id == cid) with
  | some s, some c => s.collegeId == c.collegeId
  | _, _ => true

/-- `BEFORE INSERT` trigger `check_timetable_conflicts` (schema.sql):
raises when an active selection of the student has a timetable on the
same day overlapping a timetable of the inserted course. -/
def conflictTriggerPasses (db : DB) (sid cid : Nat) : Bool :=
  !(db.selections.any (fun scs =>
    scs.studentId == sid && !scs.isCompleted &&
      db.timetables.any (fun t1 =>
        t1.courseId == scs.courseId &&
          db.timetables.any (fun t2 =>
            t2.courseId == cid && t1.day == t2.day &&
              decide (t1.startM < t2.endM) && decide (t2.startM < t1.endM)))))

/-- `BEFORE INSERT` trigger `check_course_capacity` (schema.sql): counts
every selection row of the course (completed included); with no rows, or
a missing course or `NULL` capacity, the comparison never raises. -/
def capacityTriggerPasses (db : DB) (cid : Nat) : Bool :=
  let cnt := (db.selections.filter (fun s => s.courseId == cid)).length
  if cnt == 0 then true
  else
    match db.courses.find? (fun c => c.id == cid) with
    | none => true
    | some c =>
      match c.maxCapacity with
      | none => true
      | some cap => decide (cnt < cap)

/-- One `INSERT INTO student_course_selections`: the three `BEFORE
INSERT` triggers fire (in trigger-name order), then the row is added. -/
def insertSelection (db : DB) (sid cid : Nat) : Except EnrollError DB :=
  if !collegeTriggerPasses db sid cid then .error (.collegeTrigger cid)
  else if !conflictTriggerPasses db sid cid then .error (.conflictTrigger cid)
  else if !capacityTriggerPasses db cid then .error (.capacityTrigger cid)
  else .ok { db with selections := db.selections ++ [mkSelection sid cid] }

/-- `EnrollmentService.saveEnrollments`: per course, a duplicate check
(`SELECT id ... WHERE student_id = $1 AND course_id = $2`, which inside
the transaction sees the rows inserted so far) and then the insert. -/
def saveEnrollments (db : DB) (sid : Nat) : List Nat → Except EnrollError (DB × List Selection)
  | [] => .ok (db, [])
  | cid :: rest =>
    if db.selections.any (fun s => s.studentId == sid && s.courseId == cid) then
      .error (.alreadyEnrolled cid)
    else
      match insertSelection db sid cid with
      | .error e => .error e
      | .ok db' =>
        match saveEnrollments db' sid rest with
        | .error e => .error e
        | .ok (dbf, sels) => .ok (dbf, mkSelection sid cid :: sels)

/-- `EnrollmentService.validateInput`. -/
def validateInput (db : DB) (sid : Nat) (ids : List Nat) : Option EnrollError :=
  if ids.isEmpty then some .emptyCourseList
  else if !(db.students.any (fun s => s.id == sid)) then some (.studentNotFound sid)
  else
    let existingIds := (db.courses.filter (fun c => ids.contains c.id)).map (fun c => c.id)
    if existingIds.length != ids.length then
      some (.coursesNotFound (ids.filter (fun i => !existingIds.contains i)))
    else none

/-- `EnrollmentService.enrollStudent`: input validation, the edge-case
validation, then `saveEnrollments`, all inside one transaction. -/
def enrollStudent (db : DB) (sid : Nat) (ids : List Nat) : Except EnrollError (DB × List Selection) :=
  match validateInput db sid ids with
  | some e => .error e
  | none =>
    let vr := validateEnrollmentEdgeCases db sid ids
    if !vr.isValid then .error (.validationFailed vr.violations)
    else saveEnrollments db sid ids

/-- Stored state after `enrollStudent`: `COMMIT` installs the new state,
`ROLLBACK` (on any thrown error) restores the entry state. -/
def enrollFinalState (db : DB) (sid : Nat) (ids : List Nat) : DB :=
  match enrollStudent db sid ids with
  | .ok (db', _) => db'
  | .error _ => db

/-- `DELETE FROM student_course_selections WHERE student_id = $1 AND
course_id = $2`. -/
def deleteSelections (db : DB) (sid cid : Nat) : DB :=
  { db with selections :=
      db.selections.filter (fun s => !(s.studentId == sid && s.courseId == cid)) }

/-- The per-course loop of `EnrollmentService.unenrollStudent`: check the
enrollment exists, then delete it. -/
def unenrollLoop (db : DB) (sid : Nat) : List Nat → Except EnrollError DB
  | [] => .ok db
  | cid :: rest =>
    if db.selections.any (fun s => s.studentId == sid && s.courseId == cid) then
      unenrollLoop (deleteSelections db sid cid) sid rest
    else .error (.enrollmentNotFound cid)

/-- `EnrollmentService.unenrollStudent` (transactional). -/
def unenrollStudent (db : DB) (sid : Nat) (ids : List Nat) : Except EnrollError DB :=
  unenrollLoop db sid ids

/-- Stored state after `unenrollStudent` (commit or rollback). -/
def unenrollFinalState (db : DB) (sid : Nat) (ids : List Nat) : DB :=
  match unenrollStudent db sid ids with
  | .ok db' => db'
  | .error _ => db

/-- `EnrollmentService.markCourseCompleted`: checks the enrollment exists
and sets its `completed_at` timestamp (the grade argument is unused by
the source). -/
def markCourseCompleted (db : DB) (sid cid : Nat) : Except EnrollError DB :=
  if db.selections.any (fun s => s.studentId == sid && s.courseId == cid) then
    .ok { db with selections :=
      db.selections.map (fun s =>
        if s.studentId == sid && s.courseId == cid then { s with completedAt := true } else s) }
  else .error (.enrollmentNotFound cid)

/-!
Interleaving model for two concurrent `enrollStudent` transactions.

The service opens a plain `BEGIN` (PostgreSQL default `READ COMMITTED`):
each statement sees the rows committed when it runs plus the
transaction's own uncommitted writes, and takes no lock that would order
the two capacity checks. A transaction is three atomic statements here:
the pre-checks (input validation and edge-case validation, which read
committed state — the validation service even queries over its own pool
connection), the `INSERT` with its `BEFORE INSERT` triggers (reading
committed state plus the transaction's own pending rows), and `COMMIT`.
-/

/-- Progress of one enrollment transaction. -/
inductive TxnPhase where
  | ready | checked | inserted | committed | aborted
deriving DecidableEq, Repr

/-- One in-flight `enrollStudent` transaction for a single course. -/
structure Txn where
  sid : Nat
  cid : Nat
  phase : TxnPhase
  pending : List Selection
deriving DecidableEq, Repr

/-- Shared store plus the two in-flight transactions. -/
structure RaceState where
  committedDb : DB
  txn1 : Txn
  txn2 : Txn
deriving Repr

/-- The six atomic statements the two transactions can interleave. -/
inductive RaceStep where
  | precheck1 | precheck2 | insert1 | insert2 | commit1 | commit2
deriving DecidableEq, Repr

/-- What a statement of a transaction sees under `READ COMMITTED`:
committed rows plus the transaction's own pending rows. -/
def visibleDb (db : DB) (t : Txn) : DB :=
  { db with selections := db.selections ++ t.pending }

/-- Run one transaction's pre-check statement against committed state. -/
def stepPrecheck (db : DB) (t : Txn) : Txn :=
  if t.phase == .ready then
    if (validateInput db t.sid [t.cid]).isNone
        && (validateEnrollmentEdgeCases db t.sid [t.cid]).isValid then
      { t with phase := .checked }
    else { t with phase := .aborted, pending := [] }
  else t

/-- Run one transaction's insert statement (duplicate check plus the
`INSERT` and its triggers) against committed state plus own writes. -/
def stepInsert (db : DB) (t : Txn) : Txn :=
  if t.phase == .checked then
    let vis := visibleDb db t
    if vis.selections.any (fun s => s.studentId == t.sid && s.courseId == t.cid) then
      { t with phase := .aborted, pending := [] }
    else
      match insertSelection vis t.sid t.cid with
      | .ok _ => { t with phase := .inserted, pending := t.pending ++ [mkSelection t.sid t.cid] }
      | .error _ => { t with phase := .aborted, pending := [] }
  else t

/-- Commit one transaction: its pending rows become committed. -/
def stepCommit (db : DB) (t : Txn) : DB × Txn :=
  if t.phase == .inserted then
    ({ db with selections := db.selections ++ t.pending },
      { t with phase := .committed, pending := [] })
  else (db, t)

/-- One interleaving step. -/
def raceStep (st : RaceState) : RaceStep → RaceState
  | .precheck1 => { st with txn1 := stepPrecheck st.committedDb st.txn1 }
  | .precheck2 => { st with txn2 := stepPrecheck st.committedDb st.txn2 }
  | .insert1 => { st with txn1 := stepInsert st.committedDb st.txn1 }
  | .insert2 => { st with txn2 := stepInsert st.committedDb st.txn2 }
  | .commit1 =>
    let p := stepCommit st.committedDb st.txn1
    { st with committedDb := p.1, txn1 := p.2 }
  | .commit2 =>
    let p := stepCommit st.committedDb st.txn2
    { st with committedDb := p.1, txn2 := p.2 }

/-- Run a schedule of interleaved statements. -/
def runRace (st : RaceState) (steps : List RaceStep) : RaceState :=
  steps.foldl raceStep st

/-- Modelled from the spec: the duplicate-enrollment check
(`DuplicateEnrollment`, spec section 4.6 step 5) that claim C1 places
between the college and prerequisite checks; a proposed course in which
the student is already actively enrolled is flagged. -/
def claimedDuplicateCheck (db : DB) (sid : Nat) (ids : List Nat) : List Violation :=
  (ids.filter (fun cid =>
    db.selections.any (fun s =>
      s.studentId == sid && s.courseId == cid && !s.isCompleted))).map
    (fun cid => .duplicateEnrollment cid)

/-- Modelled from the spec: the violation list claim C1 asserts the
dry-run returns, in the claimed stable order college → duplicate →
prerequisite → capacity → credit-hours → course-count → overnight-policy
→ timetable/buffer/daily-hours. -/
def claimedAggregation (db : DB) (student : Student) (ids : List Nat) : List Violation :=
  validateSameCollegeMultiple db student ids
    ++ claimedDuplicateCheck db student.id ids
    ++ validatePrerequisitesEnhanced db student.id ids
    ++ validateCourseCapacityMultiple db ids
    ++ validateCreditHoursLimit db student.id (getCoursesInfo db ids)
        (getEnrollmentConfig db student.collegeId).maxCreditHoursPerSemester
    ++ validateMaxCoursesPerSemester db student.id ids
        (getEnrollmentConfig db student.collegeId).maxCoursesPerSemester
    ++ validateOvernightClassesPolicy (getTimetablesInfo db ids)
        (getEnrollmentConfig db student.collegeId).allowOvernightClasses
    ++ validateEnhancedTimetableConflicts db student.id (getTimetablesInfo db ids)
    ++ validateBufferTime db student.id (getTimetablesInfo db ids)
        (getEnrollmentConfig db student.collegeId).minBreakTimeBetweenClasses
    ++ validateDailyStudyHours db student.id (getTimetablesInfo db ids)
        (getEnrollmentConfig db student.collegeId).maxStudyHoursPerDay

/-- A store in which student 1 is already actively enrolled in course 10
and proposes course 10 again. -/
def dbDup : DB :=
  ⟨[⟨1, 1⟩], [⟨10, 3, 1, some 30, []⟩], [], [], [⟨1, 10, false, false, none⟩], []⟩

/-- Counterexample to C1 as stated: the engine has no duplicate-enrollment
check in the dry-run aggregation — proposing a course the student is
already actively enrolled in (and that passes the other checks) yields an
empty violation list, while the claimed list contains the duplicate
violation. -/
theorem validateEdgeCases_no_duplicate_check_cex :
    (validateEnrollmentEdgeCases dbDup 1 [10]).violations = []
      ∧ claimedAggregation dbDup ⟨1, 1⟩ [10] = [.duplicateEnrollment 10]
      ∧ (validateEnrollmentEdgeCases dbDup 1 [10]).violations
          ≠ claimedAggregation dbDup ⟨1, 1⟩ [10] := by
  refine ⟨by decide, by decide, by decide⟩

/-- C1 (amended). For an existing student the dry-run runs all nine
checks — college, prerequisite, capacity, credit-hours, course-count,
overnight-policy, timetable conflicts, buffer time, daily hours — and
returns the concatenation of their violations in that stable order,
never stopping at the first violation; no duplicate-enrollment check
takes part. -/
theorem validateEdgeCases_aggregates_nine_checks_in_order
    (db : DB) (sid : Nat) (ids : List Nat) (student : Student)
    (h : getStudentInfo db sid = some student) :
    (validateEnrollmentEdgeCases db sid ids).violations =
      validateSameCollegeMultiple db student ids
        ++ validatePrerequisitesEnhanced db student.id ids
        ++ validateCourseCapacityMultiple db ids
        ++ validateCreditHoursLimit db student.id (getCoursesInfo db ids)
            (getEnrollmentConfig db student.collegeId).maxCreditHoursPerSemester
        ++ validateMaxCoursesPerSemester db student.id ids
            (getEnrollmentConfig db student.collegeId).maxCoursesPerSemester
        ++ validateOvernightClassesPolicy (getTimetablesInfo db ids)
            (getEnrollmentConfig db student.collegeId).allowOvernightClasses
        ++ validateEnhancedTimetableConflicts db student.id (getTimetablesInfo db ids)
        ++ validateBufferTime db student.id (getTimetablesInfo db ids)
            (getEnrollmentConfig db student.collegeId).minBreakTimeBetweenClasses
        ++ validateDailyStudyHours db student.id (getTimetablesInfo db ids)
            (getEnrollmentConfig db student.collegeId).maxStudyHoursPerDay := by
  unfold validateEnrollmentEdgeCases
  rw [h]
  simp [List.append_assoc]

/-- A store making three different checks fail at once: course 20 is in
another college, full, and worth more credits than the semester cap. -/
def dbMulti : DB :=
  ⟨[⟨1, 1⟩, ⟨2, 2⟩], [⟨20, 20, 2, some 1, []⟩], [], [], [⟨2, 20, false, false, none⟩], []⟩

/-- Witness for C1: the dry-run reports all three failing checks at once,
in the stable order. -/
theorem validateEdgeCases_aggregates_nine_checks_in_order_witness :
    (validateEnrollmentEdgeCases dbMulti 1 [20]).violations =
      [.collegeMismatch, .capacityFull 20, .creditHoursExceeded 20 18] := by
  rw [validateEdgeCases_aggregates_nine_checks_in_order dbMulti 1 [20] ⟨1, 1⟩ (by decide)]
  decide

theorem insertSelection_ok (db db' : DB) (sid cid : Nat)
    (h : insertSelection db sid cid = .ok db') :
    db' = { db with selections := db.selections ++ [mkSelection sid cid] } := by
  unfold insertSelection at h
  split at h
  · exact absurd h (by simp)
  · split at h
    · exact absurd h (by simp)
    · split at h
      · exact absurd h (by simp)
      · exact (Except.ok.injEq _ _ ▸ h).symm ▸ rfl

theorem saveEnrollments_ok (sid : Nat) :
    ∀ (ids : List Nat) (db dbf : DB) (sels : List Selection),
      saveEnrollments db sid ids = .ok (dbf, sels) →
      dbf = { db with selections := db.selections ++ ids.map (mkSelection sid) }
        ∧ sels = ids.map (mkSelection sid) := by
  intro ids
  induction ids with
  | nil =>
    intro db dbf sels h
    unfold saveEnrollments at h
    simp only [Except.ok.injEq, Prod.mk.injEq] at h
    obtain ⟨h1, h2⟩ := h
    subst h1
    subst h2
    simp
  | cons cid rest ih =>
    intro db dbf sels h
    unfold saveEnrollments at h
    split at h
    · exact absurd h (by simp)
    · cases hins : insertSelection db sid cid with
      | error e =>
        simp only [hins] at h
        exact absurd h (by simp)
      | ok db' =>
        simp only [hins] at h
        cases hrec : saveEnrollments db' sid rest with
        | error e =>
          simp only [hrec] at h
          exact absurd h (by simp)
        | ok p =>
          obtain ⟨dbr, selsr⟩ := p
          simp only [hrec, Except.ok.injEq, Prod.mk.injEq] at h
          obtain ⟨hdb, hsels⟩ := h
          have hmid := insertSelection_ok db db' sid cid hins
          have hrest := ih db' dbr selsr hrec
          subst hdb
          constructor
          · rw [hrest.1, hmid]
            simp
          · rw [← hsels, hrest.2]
            simp

theorem validateEdgeCases_shape (db : DB) (sid : Nat) (ids : List Nat) :
    (validateEnrollmentEdgeCases db sid ids).isValid
        = (validateEnrollmentEdgeCases db sid ids).violations.isEmpty
      ∨ validateEnrollmentEdgeCases db sid ids = ⟨false, [.internalError]⟩ := by
  unfold validateEnrollmentEdgeCases
  cases getStudentInfo db sid
  · right; rfl
  · left; rfl

theorem validateEdgeCases_isValid_imp_empty (db : DB) (sid : Nat) (ids : List Nat)
    (h : (validateEnrollmentEdgeCases db sid ids).isValid = true) :
    (validateEnrollmentEdgeCases db sid ids).violations = [] := by
  rcases validateEdgeCases_shape db sid ids with hsh | hsh
  · rw [h] at hsh
    exact List.isEmpty_iff.mp hsh.symm
  · rw [hsh] at h
    simp at h

/-- C2. Enrollment is all-or-nothing: a successful `enrollStudent` call
appends exactly one fresh active record per proposed course and implies
the validation reported no violation; any failing call leaves the stored
state exactly as it was (the transaction rolls back). -/
theorem enrollStudent_all_or_nothing (db : DB) (sid : Nat) (ids : List Nat) :
    (∀ db' sels, enrollStudent db sid ids = .ok (db', sels) →
        db' = { db with selections := db.selections ++ ids.map (mkSelection sid) }
          ∧ sels = ids.map (mkSelection sid)
          ∧ (validateEnrollmentEdgeCases db sid ids).violations = [])
      ∧ (∀ e, enrollStudent db sid ids = .error e → enrollFinalState db sid ids = db) := by
  constructor
  · intro db' sels h
    unfold enrollStudent at h
    cases hv : validateInput db sid ids with
    | some e => rw [hv] at h; exact absurd h (by simp)
    | none =>
      rw [hv] at h
      simp only at h
      split at h
      · exact absurd h (by simp)
      · rename_i hvalid
        have hok := saveEnrollments_ok sid ids db db' sels h
        refine ⟨hok.1, hok.2, ?_⟩
        apply validateEdgeCases_isValid_imp_empty
        simpa using hvalid
  · intro e h
    unfold enrollFinalState
    rw [h]

/-- A store in which student 1 can validly enroll in course 10. -/
def dbOk : DB :=
  ⟨[⟨1, 1⟩], [⟨10, 3, 1, some 30, []⟩], [], [], [], []⟩

/-- Witness for C2: a concrete successful enrollment, with the appended
record and the empty violation list. -/
theorem enrollStudent_all_or_nothing_witness :
    ({ dbOk with selections := [mkSelection 1 10] } : DB)
        = { dbOk with selections := dbOk.selections ++ [10].map (mkSelection 1) }
      ∧ [mkSelection 1 10] = [10].map (mkSelection 1)
      ∧ (validateEnrollmentEdgeCases dbOk 1 [10]).violations = [] :=
  (enrollStudent_all_or_nothing dbOk 1 [10]).1
    { dbOk with selections := [mkSelection 1 10] } [mkSelection 1 10] (by rfl)

/-- The store of the capacity race: course 10 has capacity 1 and no
enrollments; students 1 and 2 race for the last seat. -/
def dbRace : DB :=
  ⟨[⟨1, 1⟩, ⟨2, 1⟩], [⟨10, 3, 1, some 1, []⟩], [], [], [], []⟩

/-- Both transactions start before either commits. -/
def initRace : RaceState :=
  ⟨dbRace, ⟨1, 10, .ready, []⟩, ⟨2, 10, .ready, []⟩⟩

/-- The interleaving in which both capacity checks and both inserts run
before either `COMMIT`. -/
def badSchedule : List RaceStep :=
  [.precheck1, .precheck2, .insert1, .insert2, .commit1, .commit2]

/-- C3 (code bug). Under the interleaving model of the plain
`READ COMMITTED` transactions the service opens, both concurrent
requests for the last seat commit: both transactions end `committed` and
the course with capacity 1 ends with 2 active enrollments — the code has
no lock or isolation level ordering the capacity check before the rival
insert, so the claimed exactly-one-success outcome is not enforced. -/
theorem capacityRace_double_commit :
    (runRace initRace badSchedule).txn1.phase = .committed
      ∧ (runRace initRace badSchedule).txn2.phase = .committed
      ∧ activeEnrollmentCount (runRace initRace badSchedule).committedDb 10 = 2
      ∧ (getCoursesInfo dbRace [10]).map (fun c => c.maxCapacity) = [some 1] := by
  refine ⟨by decide, by decide, by decide, by decide⟩

/-- A store holding one completed, graded (historical) enrollment
record. -/
def dbPersisted : DB :=
  ⟨[⟨1, 1⟩], [⟨10, 3, 1, some 30, []⟩], [], [], [⟨1, 10, true, true, some "A"⟩], []⟩

/-- Counterexample to C9 as stated: `unenrollStudent` hard-deletes a
stored (even historical, completed) enrollment record, so the set of
stored enrollment records shrinks. -/
theorem unenrollStudent_deletes_record_cex :
    (⟨1, 10, true, true, some "A"⟩ : Selection) ∈ dbPersisted.selections
      ∧ unenrollFinalState dbPersisted 1 [10] = { dbPersisted with selections := [] }
      ∧ (⟨1, 10, true, true, some "A"⟩ : Selection)
          ∉ (unenrollFinalState dbPersisted 1 [10]).selections := by
  refine ⟨by decide, by decide, by decide⟩

theorem unenrollLoop_ok (sid : Nat) :
    ∀ (ids : List Nat) (db db' : DB),
      unenrollLoop db sid ids = .ok db' →
      db'.selections = db.selections.filter
        (fun s => !(s.studentId == sid && ids.contains s.courseId)) := by
  intro ids
  induction ids with
  | nil =>
    intro db db' h
    unfold unenrollLoop at h
    simp at h
    rw [← h]
    simp
  | cons cid rest ih =>
    intro db db' h
    unfold unenrollLoop at h
    split at h
    · have hrec := ih (deleteSelections db sid cid) db' h
      rw [hrec]
      unfold deleteSelections
      simp only [List.filter_filter]
      apply List.filter_congr
      intro s _
      cases hsid : s.studentId == sid <;> cases hcid : s.courseId == cid <;>
        cases hrest : rest.contains s.courseId <;>
          simp_all [List.contains_cons]
    · exact absurd h (by simp)

/-- C9 (amended). Enrollment records are deleted only by the unenroll
operation: enrolling never removes a stored record, completion only sets
the completion timestamp of the matching record, and unenroll removes
exactly the records of the given student for the given courses (rolling
back entirely when one of them does not exist). -/
theorem deletion_only_through_unenroll (db : DB) (sid cid : Nat) (ids : List Nat) :
    (∀ s ∈ db.selections, s ∈ (enrollFinalState db sid ids).selections)
      ∧ (∀ db', markCourseCompleted db sid cid = .ok db' →
          db'.selections = db.selections.map (fun s =>
            if s.studentId == sid && s.courseId == cid then
              { s with completedAt := true }
            else s))
      ∧ (∀ db', unenrollStudent db sid ids = .ok db' →
          db'.selections = db.selections.filter (fun s =>
            !(s.studentId == sid && ids.contains s.courseId)))
      ∧ (∀ e, unenrollStudent db sid ids = .error e → unenrollFinalState db sid ids = db) := by
  refine ⟨?_, ?_, ?_, ?_⟩
  · intro s hs
    unfold enrollFinalState
    cases h : enrollStudent db sid ids with
    | error e => exact hs
    | ok p =>
      obtain ⟨db', sels⟩ := p
      have := saveEnrollments_ok sid ids db db' sels ?hsave
      · rw [this.1]
        simp only [List.mem_append]
        exact Or.inl hs
      case hsave =>
        unfold enrollStudent at h
        cases hv : validateInput db sid ids with
        | some e => rw [hv] at h; exact absurd h (by simp)
        | none =>
          rw [hv] at h
          simp only at h
          split at h
          · exact absurd h (by simp)
          · exact h
  · intro db' h
    unfold markCourseCompleted at h
    split at h
    · simp only [Except.ok.injEq] at h
      rw [← h]
    · exact absurd h (by simp)
  · intro db' h
    exact unenrollLoop_ok sid ids db db' h
  · intro e h
    unfold unenrollFinalState
    rw [h]

theorem activeEnrollmentCount_append_completed (db : DB) (cid : Nat) (s : Selection)
    (hcomp : s.isCompleted = true) :
    activeEnrollmentCount { db with selections := db.selections ++ [s] } cid
      = activeEnrollmentCount db cid := by
  unfold activeEnrollmentCount
  simp [List.filter_append, hcomp]

/-- C8. A proposed course with a set capacity gets a capacity violation
exactly when its number of active (`is_completed = false`) selections
reaches its capacity; adding a completed selection never changes the
outcome (completed enrollments do not occupy a seat). -/
theorem capacity_violation_iff (db : DB) (ids : List Nat) (c : Course) (cap : Nat)
    (hc : c ∈ db.courses) (hid : c.id ∈ ids) (hcap : c.maxCapacity = some cap)
    (hnd : (db.courses.map (fun x => x.id)).Nodup)
    (s : Selection) (hcomp : s.isCompleted = true) :
    (Violation.capacityFull c.id ∈ validateCourseCapacityMultiple db ids
        ↔ cap ≤ activeEnrollmentCount db c.id)
      ∧ validateCourseCapacityMultiple { db with selections := db.selections ++ [s] } ids
          = validateCourseCapacityMultiple db ids := by
  constructor
  · unfold validateCourseCapacityMultiple
    constructor
    · intro hmem
      obtain ⟨c', hc', hid'⟩ := List.mem_map.mp hmem
      have hcc : c'.id = c.id := by
        simpa using hid'
      have hc'mem : c' ∈ db.courses := (List.mem_filter.mp hc').1
      have hcfilter := (List.mem_filter.mp hc').2
      have : c' = c := List.inj_on_of_nodup_map hnd hc'mem hc hcc
      subst this
      have hat : courseAtCapacity db c' = true := by
        have := (by simpa using hcfilter : c'.id ∈ ids ∧ courseAtCapacity db c' = true)
        exact this.2
      unfold courseAtCapacity at hat
      rw [hcap] at hat
      simpa using hat
    · intro hle
      apply List.mem_map.mpr
      refine ⟨c, List.mem_filter.mpr ⟨hc, ?_⟩, rfl⟩
      have hat : courseAtCapacity db c = true := by
        unfold courseAtCapacity
        rw [hcap]
        simpa using hle
      simp [hid, hat]
  · unfold validateCourseCapacityMultiple
    congr 1
    apply List.filter_congr
    intro x _
    have hx : courseAtCapacity { db with selections := db.selections ++ [s] } x
        = courseAtCapacity db x := by
      unfold courseAtCapacity
      rw [activeEnrollmentCount_append_completed db x.id s hcomp]
    rw [hx]

/-- Witness for C8 at a concrete store: the full course 20 of `dbMulti`
is flagged, and appending a completed record changes nothing. -/
theorem capacity_violation_iff_witness :
    Violation.capacityFull 20 ∈ validateCourseCapacityMultiple dbMulti [20]
      ∧ validateCourseCapacityMultiple
          { dbMulti with selections := dbMulti.selections ++ [⟨9, 20, true, true, none⟩] } [20]
        = validateCourseCapacityMultiple dbMulti [20] := by
  have h := capacity_violation_iff dbMulti [20] ⟨20, 20, 2, some 1, []⟩ 1
    (by decide) (by decide) (by decide) (by decide) ⟨9, 20, true, true, none⟩ (by decide)
  exact ⟨h.1.mpr (by decide), h.2⟩

/-- Recognizes the prerequisite violation of one course. -/
def isPrereqViolationFor (cid : Nat) : Violation → Bool
  | .prereqMissing c _ => c == cid
  | _ => false

theorem prereq_countP_zero_of_not_mem (db : DB) (sid cid : Nat) :
    ∀ ids : List Nat, cid ∉ ids →
      (validatePrerequisitesEnhanced db sid ids).countP (isPrereqViolationFor cid) = 0 := by
  intro ids
  induction ids with
  | nil => intro _; rfl
  | cons a rest ih =>
    intro hnot
    have ha : a ≠ cid := fun h => hnot (h ▸ List.mem_cons_self a rest)
    have hrest : cid ∉ rest := fun h => hnot (List.mem_cons_of_mem a h)
    unfold validatePrerequisitesEnhanced at ih ⊢
    simp only [List.flatMap_cons, List.countP_append, ih hrest, Nat.add_zero]
    split
    · rfl
    · simp [isPrereqViolationFor, ha]

theorem contains_true_iff (l : List Nat) (a : Nat) : l.contains a = true ↔ a ∈ l := by
  induction l with
  | nil => simp
  | cons b rest ih => simp [List.contains_cons, ih]

theorem contains_false_iff (l : List Nat) (a : Nat) : l.contains a = false ↔ a ∉ l := by
  rw [← contains_true_iff l a]
  cases l.contains a <;> simp

theorem missingPrereqRows_isEmpty_iff (db : DB) (sid cid : Nat) :
    (missingPrereqRows db sid cid).isEmpty = true
      ↔ ∀ r ∈ coursePrereqRows db cid, r.isMandatory = true →
          r.prereqCourseId ∈ completedCourseIds db sid := by
  unfold missingPrereqRows
  rw [List.isEmpty_iff, List.filter_eq_nil_iff]
  constructor
  · intro h r hr hm
    by_contra hnot
    apply h r hr
    rw [hm]
    simp only [Bool.true_and, Bool.not_eq_true']
    exact (contains_false_iff _ _).mpr hnot
  · intro h r hr hcond
    rw [Bool.and_eq_true, Bool.not_eq_true'] at hcond
    exact absurd (h r hr hcond.1) ((contains_false_iff _ _).mp hcond.2)

theorem prereq_violation_list_eq (db : DB) (sid : Nat) :
    ∀ (ids : List Nat) (c : Nat) (m : List Nat),
      Violation.prereqMissing c m ∈ validatePrerequisitesEnhanced db sid ids →
      m = (missingPrereqRows db sid c).map (fun r => r.prereqCourseId) := by
  intro ids
  induction ids with
  | nil => intro c m h; exact absurd h (by simp [validatePrerequisitesEnhanced])
  | cons a rest ih =>
    intro c m h
    unfold validatePrerequisitesEnhanced at h
    simp only [List.flatMap_cons, List.mem_append] at h
    rcases h with h | h
    · split at h
      · exact absurd h (by simp)
      · simp only [List.mem_singleton, Violation.prereqMissing.injEq] at h
        rw [h.2, h.1]
    · exact ih c m h

theorem prereq_countP_eq (db : DB) (sid cid : Nat) :
    ∀ ids : List Nat, cid ∈ ids → ids.Nodup →
      (validatePrerequisitesEnhanced db sid ids).countP (isPrereqViolationFor cid)
        = if (missingPrereqRows db sid cid).isEmpty then 0 else 1 := by
  intro ids
  induction ids with
  | nil => intro h _; exact absurd h (by simp)
  | cons a rest ih =>
    intro hmem hnd
    unfold validatePrerequisitesEnhanced
    simp only [List.flatMap_cons, List.countP_append]
    rcases List.mem_cons.mp hmem with heq | hrest
    · subst heq
      have hnotin : cid ∉ rest := (List.nodup_cons.mp hnd).1
      have hzero := prereq_countP_zero_of_not_mem db sid cid rest hnotin
      unfold validatePrerequisitesEnhanced at hzero
      rw [hzero]
      cases hie : (missingPrereqRows db sid cid).isEmpty
      · simp [hie, isPrereqViolationFor]
      · simp [hie]
    · have ha : a ≠ cid := fun h => (List.nodup_cons.mp hnd).1 (h ▸ hrest)
      have ihh := ih hrest (List.nodup_cons.mp hnd).2
      unfold validatePrerequisitesEnhanced at ihh
      rw [ihh]
      have hhead : (if (missingPrereqRows db sid a).isEmpty then ([] : List Violation)
          else [.prereqMissing a
            ((missingPrereqRows db sid a).map (fun r => r.prereqCourseId))]).countP
            (isPrereqViolationFor cid) = 0 := by
        split
        · rfl
        · simp [isPrereqViolationFor, ha]
      rw [hhead, Nat.zero_add]

/-- C7. For every proposed course the prerequisite check emits one
violation exactly when some mandatory prerequisite row names a course id
outside the student's completed set (it passes iff all mandatory
prerequisite ids are completed); the violation lists precisely the
missing mandatory prerequisite ids; and the result never depends on the
grades stored in the student's records (the edge's minimum grade is
never compared to an earned grade). -/
theorem prerequisite_check_completion_only (db : DB) (sid : Nat) (ids : List Nat) (cid : Nat)
    (hmem : cid ∈ ids) (hnd : ids.Nodup) (g : Selection → Option String) :
    ((validatePrerequisitesEnhanced db sid ids).countP (isPrereqViolationFor cid)
        = if ∀ r ∈ coursePrereqRows db cid, r.isMandatory = true →
              r.prereqCourseId ∈ completedCourseIds db sid then 0 else 1)
      ∧ (∀ m, Violation.prereqMissing cid m ∈ validatePrerequisitesEnhanced db sid ids →
          ∀ p, p ∈ m ↔ ∃ r ∈ coursePrereqRows db cid,
            r.isMandatory = true ∧ r.prereqCourseId = p
              ∧ p ∉ completedCourseIds db sid)
      ∧ validatePrerequisitesEnhanced
            { db with selections := db.selections.map (fun s => { s with grade := g s }) }
            sid ids
          = validatePrerequisitesEnhanced db sid ids := by
  refine ⟨?_, ?_, ?_⟩
  · rw [prereq_countP_eq db sid cid ids hmem hnd]
    by_cases hall : ∀ r ∈ coursePrereqRows db cid, r.isMandatory = true →
        r.prereqCourseId ∈ completedCourseIds db sid
    · rw [if_pos ((missingPrereqRows_isEmpty_iff db sid cid).mpr hall), if_pos hall]
    · have hne : ¬((missingPrereqRows db sid cid).isEmpty = true) :=
        fun h => hall ((missingPrereqRows_isEmpty_iff db sid cid).mp h)
      rw [if_neg hne, if_neg hall]
  · intro m hm p
    have hlist := prereq_violation_list_eq db sid ids cid m hm
    subst hlist
    rw [List.mem_map]
    constructor
    · rintro ⟨r, hr, hp⟩
      have hr' := List.mem_filter.mp hr
      have hcond := hr'.2
      rw [Bool.and_eq_true, Bool.not_eq_true'] at hcond
      refine ⟨r, hr'.1, hcond.1, hp, ?_⟩
      rw [← hp]
      exact (contains_false_iff _ _).mp hcond.2
    · rintro ⟨r, hr, hmand, hp, hnot⟩
      refine ⟨r, List.mem_filter.mpr ⟨hr, ?_⟩, hp⟩
      rw [Bool.and_eq_true, Bool.not_eq_true']
      refine ⟨hmand, (contains_false_iff _ _).mpr ?_⟩
      rw [hp]
      exact hnot
  · have hcomp : completedCourseIds
        { db with selections := db.selections.map (fun s => { s with grade := g s }) } sid
      = completedCourseIds db sid := by
      unfold completedCourseIds
      rw [List.filter_map, List.map_map]
      rfl
    have hmiss : ∀ c, missingPrereqRows
        { db with selections := db.selections.map (fun s => { s with grade := g s }) } sid c
      = missingPrereqRows db sid c := by
      intro c
      unfold missingPrereqRows
      rw [hcomp]
      rfl
    unfold validatePrerequisitesEnhanced
    congr 1
    funext c
    rw [hmiss c]

/-- A store where course 10 has one mandatory prerequisite (course 5)
and student 1 has completed nothing. -/
def dbPrereq : DB :=
  ⟨[⟨1, 1⟩], [⟨10, 3, 1, some 30, []⟩, ⟨5, 3, 1, some 30, []⟩],
    [], [⟨10, 5, none, true⟩], [], []⟩

/-- Witness for C7: a student with no completed courses proposing a
course with one mandatory prerequisite gets exactly one violation,
listing exactly that prerequisite. -/
theorem prerequisite_check_completion_only_witness :
    ((validatePrerequisitesEnhanced dbPrereq 1 [10]).countP (isPrereqViolationFor 10)
        = if ∀ r ∈ coursePrereqRows dbPrereq 10, r.isMandatory = true →
              r.prereqCourseId ∈ completedCourseIds dbPrereq 1 then 0 else 1)
      ∧ (validatePrerequisitesEnhanced dbPrereq 1 [10]).countP (isPrereqViolationFor 10) = 1
      ∧ validatePrerequisitesEnhanced dbPrereq 1 [10] = [.prereqMissing 10 [5]] := by
  refine ⟨(prerequisite_check_completion_only dbPrereq 1 [10] 10
    (by decide) (by decide) (fun _ => none)).1, by decide, by decide⟩

theorem bufferTime_gap_lt (db : DB) (sid : Nat) (newTts : List Timetable) (minBuf : Nat)
    (d : DayOfWeek) (ce ns : Nat) (gp : Int)
    (h : Violation.bufferTime d ce ns gp ∈ validateBufferTime db sid newTts minBuf) :
    gp < (minBuf : Int) := by
  unfold validateBufferTime at h
  rw [List.mem_flatMap] at h
  obtain ⟨p, _, hmem⟩ := h
  unfold dayBufferViolations at hmem
  rw [List.mem_filterMap] at hmem
  obtain ⟨pair, _, heq⟩ := hmem
  simp only at heq
  split at heq
  · rename_i hlt
    simp only [Option.some.injEq, Violation.bufferTime.injEq] at heq
    rw [← heq.2.2.2]
    exact hlt
  · exact absurd heq (by simp)

/-- C6. Within a day's group, an adjacent pair (current, next) of the
non-overnight slots sorted by start time yields a buffer violation
exactly when next.start minus current.end is strictly below the minimum
buffer; a gap equal to the minimum is compliant. -/
theorem buffer_violation_iff (db : DB) (sid : Nat) (newTts : List Timetable) (minBuf : Nat)
    (d : DayOfWeek) (l : List Timetable) (c n : Timetable)
    (hd : (d, l) ∈ groupTimetablesByDay (existingTimetables db sid ++ newTts))
    (hpair : (c, n) ∈ bufferPairs (sortByStart (l.filter (fun t => !t.isOvernight)))) :
    Violation.bufferTime d c.endM n.startM ((n.startM : Int) - (c.endM : Int))
        ∈ validateBufferTime db sid newTts minBuf
      ↔ (n.startM : Int) - (c.endM : Int) < (minBuf : Int) := by
  constructor
  · exact bufferTime_gap_lt db sid newTts minBuf d c.endM n.startM _
  · intro hlt
    unfold validateBufferTime
    rw [List.mem_flatMap]
    refine ⟨(d, l), hd, ?_⟩
    unfold dayBufferViolations
    rw [List.mem_filterMap]
    exact ⟨(c, n), hpair, by simp [hlt]⟩

/-- Monday 10:00-10:30. -/
def slotMonA : Timetable := ⟨10, .monday, 600, 630, false⟩

/-- Monday 10:45-11:40, leaving exactly the 15-minute buffer. -/
def slotMonB : Timetable := ⟨11, .monday, 645, 700, false⟩

/-- Monday 10:44-11:40, leaving a 14-minute gap. -/
def slotMonC : Timetable := ⟨11, .monday, 644, 700, false⟩

/-- Witness for C6: a 14-minute gap under a 15-minute policy is flagged,
a 15-minute gap is compliant. -/
theorem buffer_violation_iff_witness :
    Violation.bufferTime .monday slotMonA.endM slotMonC.startM
        ((slotMonC.startM : Int) - (slotMonA.endM : Int))
        ∈ validateBufferTime dbOk 1 [slotMonA, slotMonC] 15
      ∧ Violation.bufferTime .monday 630 645 ((645 : Int) - 630)
          ∉ validateBufferTime dbOk 1 [slotMonA, slotMonB] 15 := by
  refine ⟨(buffer_violation_iff dbOk 1 [slotMonA, slotMonC] 15 .monday [slotMonA, slotMonC]
    slotMonA slotMonC (by decide) (by decide)).mpr (by decide), by decide⟩

/-- Lookup of a day's accumulated hours. -/
def lookupQ : List (DayOfWeek × ℚ) → DayOfWeek → Option ℚ
  | [], _ => none
  | p :: rest, d => if p.1 == d then some p.2 else lookupQ rest d

/-- The day's total in hours, as the claim words it: sum of the slot
contributions over the slots whose day-of-week equals the day. -/
def totalQ (tts : List Timetable) (d : DayOfWeek) : ℚ :=
  ((tts.filter (fun t => t.day == d)).map slotHoursQ).sum

/-- The day's total in minutes. -/
def dayTotalMinutes (tts : List Timetable) (d : DayOfWeek) : Int :=
  ((tts.filter (fun t => t.day == d)).map durationMinutes).sum

theorem lookupQ_map_update (t : Timetable) (d : DayOfWeek) :
    ∀ acc : List (DayOfWeek × ℚ),
      lookupQ (acc.map (fun p => if p.1 == t.day then (p.1, p.2 + slotHoursQ t) else p)) d
        = if d = t.day then (lookupQ acc d).map (fun q => q + slotHoursQ t)
          else lookupQ acc d := by
  intro acc
  induction acc with
  | nil => by_cases hd : d = t.day <;> simp [lookupQ, hd]
  | cons p rest ih =>
    simp only [List.map_cons, lookupQ]
    by_cases h1 : p.1 = t.day
    · have hb1 : (p.1 == t.day) = true := by simp [h1]
      rw [hb1]
      by_cases h2 : p.1 = d
      · have hb2 : (p.1 == d) = true := by simp [h2]
        have hdt : d = t.day := by rw [← h2, h1]
        simp only [if_true, hb2, lookupQ]
        rw [if_pos hdt]
        simp [hb2]
      · have hb2 : (p.1 == d) = false := by simp [h2]
        have hdt : ¬d = t.day := fun h => h2 (by rw [h1, ← h])
        simp only [if_true, hb2, Bool.false_eq_true, if_false]
        rw [ih, if_neg hdt]
    · have hb1 : (p.1 == t.day) = false := by simp [h1]
      rw [hb1]
      by_cases h2 : p.1 = d
      · have hb2 : (p.1 == d) = true := by simp [h2]
        have hdt : ¬d = t.day := fun h => h1 (by rw [h2, h])
        simp only [Bool.false_eq_true, if_false, hb2, if_true]
        rw [if_neg hdt]
      · have hb2 : (p.1 == d) = false := by simp [h2]
        simp only [Bool.false_eq_true, if_false, hb2]
        rw [ih]

theorem lookupQ_append_single (t : Timetable) (d : DayOfWeek) :
    ∀ acc : List (DayOfWeek × ℚ),
      lookupQ (acc ++ [(t.day, slotHoursQ t)]) d
        = match lookupQ acc d with
          | some q => some q
          | none => if d = t.day then some (slotHoursQ t) else none := by
  intro acc
  induction acc with
  | nil =>
    by_cases hd : d = t.day
    · have hb : (t.day == d) = true := by simp [hd]
      simp only [List.nil_append, lookupQ, hb, if_true]
      rw [if_pos hd]
    · have hb : (t.day == d) = false := by simp; exact fun h => hd h.symm
      simp only [List.nil_append, lookupQ, hb, Bool.false_eq_true, if_false]
      rw [if_neg hd]
  | cons p rest ih =>
    by_cases h2 : p.1 = d
    · have hb2 : (p.1 == d) = true := by simp [h2]
      simp [lookupQ, hb2]
    · have hb2 : (p.1 == d) = false := by simp [h2]
      simp only [List.cons_append, lookupQ, hb2, Bool.false_eq_true, if_false]
      exact ih

theorem lookupQ_none_of_any_false (e : DayOfWeek) :
    ∀ acc : List (DayOfWeek × ℚ),
      acc.any (fun p => p.1 == e) = false → lookupQ acc e = none := by
  intro acc
  induction acc with
  | nil => intro _; rfl
  | cons p rest ih =>
    intro h
    simp only [List.any_cons, Bool.or_eq_false_iff] at h
    simp only [lookupQ, h.1, Bool.false_eq_true, if_false]
    exact ih h.2

theorem lookupQ_isSome_of_any_true (e : DayOfWeek) :
    ∀ acc : List (DayOfWeek × ℚ),
      acc.any (fun p => p.1 == e) = true → (lookupQ acc e).isSome = true := by
  intro acc
  induction acc with
  | nil => intro h; simp at h
  | cons p rest ih =>
    intro h
    simp only [List.any_cons, Bool.or_eq_true] at h
    by_cases h1 : p.1 = e
    · simp [lookupQ, h1]
    · have : rest.any (fun p => p.1 == e) = true := by
        rcases h with h | h
        · exact absurd (by simpa using h) h1
        · exact h
      simp [lookupQ, h1, ih this]

theorem lookupQ_addSlotHours (acc : List (DayOfWeek × ℚ)) (t : Timetable) (d : DayOfWeek) :
    lookupQ (addSlotHours acc t) d
      = if d = t.day then
          match lookupQ acc d with
          | some q => some (q + slotHoursQ t)
          | none => some (slotHoursQ t)
        else lookupQ acc d := by
  unfold addSlotHours
  cases hany : acc.any (fun p => p.1 == t.day)
  · simp only [Bool.false_eq_true, if_false]
    rw [lookupQ_append_single]
    by_cases hd : d = t.day
    · rw [hd] at *
      rw [lookupQ_none_of_any_false t.day acc hany]
    · cases hl : lookupQ acc d <;> simp [hd]
  · simp only [if_true]
    rw [lookupQ_map_update]
    by_cases hd : d = t.day
    · rw [hd] at *
      have hsome := lookupQ_isSome_of_any_true t.day acc hany
      cases hl : lookupQ acc t.day
      · rw [hl] at hsome; simp at hsome
      · simp [hd, hl]
    · simp [hd]

theorem lookupQ_foldl_addSlotHours (d : DayOfWeek) :
    ∀ (tts : List Timetable) (acc : List (DayOfWeek × ℚ)),
      lookupQ (tts.foldl addSlotHours acc) d
        = match lookupQ acc d with
          | some q => some (q + totalQ tts d)
          | none =>
            if (tts.filter (fun t => t.day == d)).isEmpty then none
            else some (totalQ tts d) := by
  intro tts
  induction tts with
  | nil =>
    intro acc
    cases h : lookupQ acc d <;> simp [totalQ, h]
  | cons t rest ih =>
    intro acc
    rw [List.foldl_cons, ih (addSlotHours acc t), lookupQ_addSlotHours]
    by_cases hd : d = t.day
    · rw [if_pos hd]
      have hfil : (t :: rest).filter (fun u => u.day == d)
          = t :: rest.filter (fun u => u.day == d) :=
        List.filter_cons_of_pos (by simp [hd.symm])
      have htot : totalQ (t :: rest) d = slotHoursQ t + totalQ rest d := by
        unfold totalQ
        rw [hfil]
        simp
      cases h : lookupQ acc d
      · simp only
        rw [htot, hfil]
        simp
      · simp only
        rw [htot, add_assoc]
    · rw [if_neg hd]
      have hfil : (t :: rest).filter (fun u => u.day == d)
          = rest.filter (fun u => u.day == d) :=
        List.filter_cons_of_neg (by simp; exact fun h => hd h.symm)
      have htot : totalQ (t :: rest) d = totalQ rest d := by
        unfold totalQ
        rw [hfil]
      rw [htot, hfil]

theorem mem_iff_lookupQ :
    ∀ (l : List (DayOfWeek × ℚ)), (l.map Prod.fst).Nodup →
      ∀ (d : DayOfWeek) (q : ℚ), (d, q) ∈ l ↔ lookupQ l d = some q := by
  intro l
  induction l with
  | nil => intro _ d q; simp [lookupQ]
  | cons p rest ih =>
    intro hnd d q
    simp only [List.map_cons, List.nodup_cons] at hnd
    by_cases h1 : p.1 = d
    · have hnot : (d, q) ∉ rest := by
        intro hmem
        exact hnd.1 (h1 ▸ (List.mem_map.mpr ⟨(d, q), hmem, rfl⟩))
      simp only [List.mem_cons, lookupQ, h1]
      constructor
      · rintro (h | h)
        · rw [← h]; simp [h1]
        · exact absurd h hnot
      · intro h
        simp only [beq_self_eq_true, if_true, Option.some.injEq] at h
        left
        rw [← h1, ← h]
    · simp only [List.mem_cons, lookupQ]
      have : (p.1 == d) = false := by simp [h1]
      rw [this]
      simp only [Bool.false_eq_true, if_false]
      rw [← ih hnd.2 d q]
      constructor
      · rintro (h | h)
        · exact absurd (congrArg Prod.fst h).symm h1
        · exact h
      · exact Or.inr

theorem addSlotHours_keys (acc : List (DayOfWeek × ℚ)) (t : Timetable) :
    (addSlotHours acc t).map Prod.fst = acc.map Prod.fst
      ∨ (addSlotHours acc t).map Prod.fst = acc.map Prod.fst ++ [t.day] := by
  unfold addSlotHours
  cases hany : acc.any (fun p => p.1 == t.day)
  · right; simp
  · left
    rw [if_pos rfl, List.map_map]
    apply List.map_congr_left
    intro p _
    by_cases h : p.1 = t.day <;> simp [h]

theorem foldl_addSlotHours_keys_nodup :
    ∀ (tts : List Timetable) (acc : List (DayOfWeek × ℚ)),
      ((acc.map Prod.fst).Nodup) → (((tts.foldl addSlotHours acc)).map Prod.fst).Nodup := by
  intro tts
  induction tts with
  | nil => intro acc h; exact h
  | cons t rest ih =>
    intro acc hnd
    rw [List.foldl_cons]
    apply ih
    unfold addSlotHours
    cases hany : acc.any (fun p => p.1 == t.day)
    · simp only [Bool.false_eq_true, if_false]
      rw [List.map_append]
      rw [List.nodup_append]
      refine ⟨hnd, by simp, ?_⟩
      intro x hx
      simp only [List.map_cons, List.map_nil, List.mem_singleton]
      intro hx'
      subst hx'
      obtain ⟨p, hp, hpd⟩ := List.mem_map.mp hx
      have : acc.any (fun p => p.1 == t.day) = true :=
        List.any_eq_true.mpr ⟨p, hp, by simp [hpd]⟩
      rw [this] at hany
      exact absurd hany (by simp)
    · rw [if_pos rfl, List.map_map]
      have : (acc.map (Prod.fst ∘ fun p =>
          if p.1 == t.day then (p.1, p.2 + slotHoursQ t) else p)) = acc.map Prod.fst := by
        apply List.map_congr_left
        intro p _
        by_cases h : p.1 = t.day <;> simp [h]
      rw [this]
      exact hnd

theorem totalQ_eq_dayTotal (d : DayOfWeek) :
    ∀ tts : List Timetable, totalQ tts d = (dayTotalMinutes tts d : ℚ) / 60 := by
  intro tts
  unfold totalQ dayTotalMinutes
  induction tts with
  | nil => simp
  | cons t rest ih =>
    by_cases h : t.day = d
    · rw [List.filter_cons_of_pos (by simp [h])]
      simp only [List.map_cons, List.sum_cons]
      rw [ih]
      unfold slotHoursQ
      push_cast
      ring
    · rw [List.filter_cons_of_neg (by simp [h])]
      exact ih

theorem dayTotalMinutes_zero_of_empty (tts : List Timetable) (d : DayOfWeek)
    (h : (tts.filter (fun t => t.day == d)).isEmpty = true) :
    dayTotalMinutes tts d = 0 := by
  unfold dayTotalMinutes
  rw [List.isEmpty_iff.mp h]
  rfl

/-- C5. A daily-hours violation for a day is emitted exactly when the sum
of slot durations of that day — a regular slot contributing end minus
start, an overnight slot contributing (1440 - start) + end, credited to
its start day — strictly exceeds 60 times the daily cap, and the reported
figure is that minute total divided by 60. -/
theorem daily_hours_violation_iff (db : DB) (sid : Nat) (newTts : List Timetable)
    (maxHours : Nat) (d : DayOfWeek) (q : ℚ) :
    Violation.dailyHours d q maxHours ∈ validateDailyStudyHours db sid newTts maxHours
      ↔ q = (dayTotalMinutes (existingTimetables db sid ++ newTts) d : ℚ) / 60
          ∧ (60 * maxHours : Int) < dayTotalMinutes (existingTimetables db sid ++ newTts) d := by
  have hnd := foldl_addSlotHours_keys_nodup (existingTimetables db sid ++ newTts) [] (by simp)
  have hfold : lookupQ (List.foldl addSlotHours [] (existingTimetables db sid ++ newTts)) d
      = if ((existingTimetables db sid ++ newTts).filter
            (fun t => t.day == d)).isEmpty = true
        then none else some (totalQ (existingTimetables db sid ++ newTts) d) := by
    rw [lookupQ_foldl_addSlotHours d (existingTimetables db sid ++ newTts) []]
    rfl
  have hq60 : ∀ x : ℚ, ((maxHours : ℚ) < x / 60) ↔ ((60 * maxHours : Int) : ℚ) < x := by
    intro x
    rw [lt_div_iff₀ (by norm_num : (0:ℚ) < 60)]
    constructor
    · intro h; calc ((60 * maxHours : Int) : ℚ) = (maxHours : ℚ) * 60 := by push_cast; ring
        _ < x := h
    · intro h; calc (maxHours : ℚ) * 60 = ((60 * maxHours : Int) : ℚ) := by push_cast; ring
        _ < x := h
  unfold validateDailyStudyHours
  rw [List.mem_filterMap]
  constructor
  · rintro ⟨p, hp, heq⟩
    split at heq
    · rename_i hgt
      simp only [Option.some.injEq, Violation.dailyHours.injEq] at heq
      have hpd : p = (d, q) := Prod.ext heq.1 heq.2.1
      subst hpd
      have hlook := (mem_iff_lookupQ (calculateHoursByDay
        (existingTimetables db sid ++ newTts)) hnd d q).mp hp
      unfold calculateHoursByDay at hlook
      rw [hfold] at hlook
      split at hlook
      · exact absurd hlook (by simp)
      · rename_i hne
        simp only [Option.some.injEq] at hlook
        have hq : q = totalQ (existingTimetables db sid ++ newTts) d := hlook.symm
        rw [totalQ_eq_dayTotal] at hq
        refine ⟨hq, ?_⟩
        have := hgt
        rw [hq] at this
        have hcast := (hq60 ((dayTotalMinutes (existingTimetables db sid ++ newTts) d : ℚ))).mp this
        exact_mod_cast hcast
    · exact absurd heq (by intro hc; cases hc)
  · rintro ⟨hq, hlt⟩
    have hne : (((existingTimetables db sid ++ newTts)).filter
        (fun t => t.day == d)).isEmpty = false := by
      cases hie : (((existingTimetables db sid ++ newTts)).filter
          (fun t => t.day == d)).isEmpty
      · rfl
      · have h0 := dayTotalMinutes_zero_of_empty _ d hie
        rw [h0] at hlt
        have : (0:Int) ≤ 60 * maxHours := by positivity
        omega
    have hlook : lookupQ (calculateHoursByDay (existingTimetables db sid ++ newTts)) d
        = some (totalQ (existingTimetables db sid ++ newTts) d) := by
      unfold calculateHoursByDay
      rw [hfold, hne]
      simp
    have hmem := (mem_iff_lookupQ (calculateHoursByDay
      (existingTimetables db sid ++ newTts)) hnd d
      (totalQ (existingTimetables db sid ++ newTts) d)).mpr hlook
    have hqt : q = totalQ (existingTimetables db sid ++ newTts) d := by
      rw [totalQ_eq_dayTotal]
      exact hq
    refine ⟨(d, q), by rw [hqt]; exact hmem, ?_⟩
    have hgt : (maxHours : ℚ) < q := by
      rw [hq]
      exact (hq60 _).mpr (by exact_mod_cast hlt)
    simp [hgt]

/-- Monday 08:00-12:30, 270 minutes. -/
def slotMonD : Timetable := ⟨10, .monday, 480, 750, false⟩

/-- Monday 13:00-17:30, 270 minutes. -/
def slotMonE : Timetable := ⟨11, .monday, 780, 1050, false⟩

/-- Witness for C5 at the spec's instance: two 4.5-hour Monday slots
under an 8-hour cap give a 540-minute (9.0-hour) violation. -/
theorem daily_hours_violation_iff_witness :
    Violation.dailyHours .monday
        ((dayTotalMinutes (existingTimetables dbOk 1 ++ [slotMonD, slotMonE]) .monday : ℚ) / 60) 8
        ∈ validateDailyStudyHours dbOk 1 [slotMonD, slotMonE] 8
      ∧ dayTotalMinutes (existingTimetables dbOk 1 ++ [slotMonD, slotMonE]) .monday = 540 := by
  refine ⟨(daily_hours_violation_iff dbOk 1 [slotMonD, slotMonE] 8 .monday _).mpr
    ⟨rfl, by decide⟩, by decide⟩

/-- Witness for C9 at concrete stores: the enroll branch keeps the old
record, and the unenroll branch removes exactly the matching record. -/
theorem deletion_only_through_unenroll_witness :
    ((⟨1, 10, true, true, some "A"⟩ : Selection) ∈ (enrollFinalState dbPersisted 1 [10]).selections)
      ∧ ({ dbPersisted with selections := [] } : DB).selections
          = dbPersisted.selections.filter (fun s =>
              !(s.studentId == 1 && [10].contains s.courseId)) := by
  refine ⟨(deletion_only_through_unenroll dbPersisted 1 10 [10]).1 _ (by decide), ?_⟩
  exact (deletion_only_through_unenroll dbPersisted 1 10 [10]).2.2.1
    { dbPersisted with selections := [] } (by rfl)

end Aeria
